import Mathlib

/-!
Verification of the iterative extraction-reconciliation loop of the
document-capture agent (`document_capture.py`, class `DocumentCaptureAgent`),
together with the document loader it polls (`input.py`, `DocumentHub`).

The Python state is a loosely-typed dictionary; we embed it shallowly:

* JSON values (the output of `json.loads` and the contents of result nodes)
  become the inductive type `Json`; Python `None` and JSON `null` are both
  `Json.null` (the code never distinguishes them: `dict.get` returns `None`
  for an absent key, and `json.loads` maps `null` to `None`).
* Python dictionaries become association lists in insertion order
  (`List (String × _)`); `dict.get` becomes `List.lookup`.
* Statements that can raise (`sum`/`min`/comparison on non-integers,
  `", ".join` on non-strings, `set()` on unhashable values, `.strip()` on
  non-strings, string subscripts out of range, `int()` on non-numeric text)
  are modelled with `Option`: `none` is an uncaught Python exception.
* The blocking console reads (`input()`) become an explicit list of input
  lines threaded through the interactive resolvers.
-/

namespace DocumentCapture

/-- JSON values as returned by `json.loads`, also used for the `value`,
`explanation` and `confidence` slots of result nodes. `null` stands for both
JSON `null` and Python `None`. Numbers are integers (the confidences the
pipeline handles are 0–100 integers). -/
inductive Json where
  | null
  | bool (b : Bool)
  | num (n : Int)
  | str (s : String)
  | arr (xs : List Json)
  | obj (kvs : List (String × Json))

/-- Python truthiness (`bool(x)`) on a JSON value: `None`, `False`, `0`, `""`,
`[]` and `{}` are falsy, everything else is truthy. -/
def truthy : Json → Bool
  | .null => false
  | .bool b => b
  | .num n => n != 0
  | .str s => s ≠ ""
  | .arr xs => !xs.isEmpty
  | .obj kvs => !kvs.isEmpty

/-- Dictionary access `d.get(k)` / `d.get(k, None)`: an absent key yields
`None`, which we collapse with JSON `null`. -/
def jget (kvs : List (String × Json)) (k : String) : Json :=
  match kvs.lookup k with
  | some v => v
  | none => .null

/-- Hashable scalar JSON values, as accepted by a Python `set`. Building a set
from a list or dict raises `TypeError: unhashable type`. -/
inductive ScalarKey where
  | null
  | bool (b : Bool)
  | num (n : Int)
  | str (s : String)
deriving DecidableEq, Repr

/-- Scalar view of a JSON value; `none` for the unhashable `arr`/`obj`. -/
def scalarKey? : Json → Option ScalarKey
  | .null => some .null
  | .bool b => some (.bool b)
  | .num n => some (.num n)
  | .str s => some (.str s)
  | .arr _ => none
  | .obj _ => none

/-- Python `str.strip()` (no argument): remove leading and trailing
whitespace. Defined over the character list so it evaluates by `rfl`. -/
def pyStrip (s : String) : String :=
  ⟨((s.data.dropWhile Char.isWhitespace).reverse.dropWhile Char.isWhitespace).reverse⟩

/-- Decimal digit telescope for `pyInt?`. `none` on the empty string or any
non-digit character, mirroring `int()` raising `ValueError`. -/
def parseDigits : List Char → Option Nat
  | [] => none
  | [c] => if c.isDigit then some (c.toNat - '0'.toNat) else none
  | c :: rest =>
      if c.isDigit then
        (parseDigits rest).map (fun n => (c.toNat - '0'.toNat) * 10 ^ rest.length + n)
      else none

/-- Python `int(s)` on console input: an optionally signed decimal literal,
`none` (`ValueError`) otherwise. -/
def pyInt? (s : String) : Option Int :=
  match s.data with
  | '-' :: rest => (parseDigits rest).map (fun n => -(n : Int))
  | l => (parseDigits l).map (fun n => (n : Int))

/-- Per-field result node (`InformationNode` in `document_capture.py`).
Every node the program builds carries the `match`/`value`/`explanation`/
`confidence` keys, so those are plain `Json` slots (with `null` for `None`);
the `has_conflict` key is genuinely absent from freshly normalized nodes, so
it is an `Option Bool` with `none` meaning "key not present". `match` is a
Lean keyword, hence the trailing underscore. -/
structure InformationNode where
  match_ : Bool
  value : Json
  explanation : Json
  confidence : Json
  has_conflict : Option Bool

/-- Marker explanation used when the model returned an unstructured value. -/
def unstructuredMarker : String :=
  "Modelo retornó valor sin estructura, asumiremos baja confianza"

/-- Normalization of one raw response entry (the three branches of
`normalize_fields`): a structured object passes `value`/`explanation` through
and coerces `match`/`confidence`; an absent or null entry yields the canonical
empty node; any other bare value becomes a low-trust match with confidence
30. -/
def normalizeEntry : Json → InformationNode
  | .obj kvs =>
      { match_ := truthy (jget kvs "match")
        value := jget kvs "value"
        explanation := jget kvs "explanation"
        confidence :=
          match jget kvs "confidence" with
          | .null => .num 0
          | c => c
        has_conflict := none }
  | .null =>
      { match_ := false, value := .null, explanation := .null
        confidence := .num 0, has_conflict := none }
  | v =>
      { match_ := true, value := v, explanation := .str unstructuredMarker
        confidence := .num 30, has_conflict := none }

/-- Embedding of `DocumentCaptureAgent.normalize_fields`: one normalized node
per expected field, in field order, from the parsed raw response. -/
def normalize_fields (text : List (String × Json)) (expected_fields : List String) :
    List (String × InformationNode) :=
  expected_fields.map (fun f => (f, normalizeEntry (jget text f)))

/-- Carry-over test at the top of `curate_and_disambiguate`'s per-field loop:
`existing and existing.get("match") and not existing.get("has_conflict") and
existing.get("confidence", 0) >= 10`, with Python short-circuiting. Comparing
a non-numeric confidence with 10 raises `TypeError` (`none`); Python booleans
compare as the integers 0 and 1, both below 10. -/
def carriedOver : Option InformationNode → Option Bool
  | none => some false
  | some r =>
      if !r.match_ then some false
      else if r.has_conflict.getD false then some false
      else
        match r.confidence with
        | .num n => some (decide (10 ≤ n))
        | .bool _ => some false
        | _ => none

/-- Hit collection of `curate_and_disambiguate`: walk the per-document
extraction maps in document order and keep each node for this field whose
`match` is truthy (nodes are non-empty dicts, hence themselves truthy). -/
def collectHits (extracted : List (String × List (String × InformationNode)))
    (field : String) : List InformationNode :=
  extracted.filterMap (fun doc =>
    match doc.2.lookup field with
    | some fd => if fd.match_ then some fd else none
    | none => none)

/-- Python `sum` over the hit confidences: `none` (`TypeError`) unless every
confidence is an integer. -/
def sumConfs : List Json → Option Int
  | [] => some 0
  | .num n :: rest => (sumConfs rest).map (fun s => n + s)
  | _ => none

/-- Python `min` over the hit confidences: `none` on an empty list
(`ValueError`) or any non-integer entry (`TypeError`). -/
def minConfs : List Json → Option Int
  | [] => none
  | [.num n] => some n
  | .num n :: rest => (minConfs rest).map (fun m => min n m)
  | _ => none

/-- Python `", ".join` over the hit explanations: `none` (`TypeError`) unless
every explanation is a string. -/
def joinExpls : List Json → Option String
  | [] => some ""
  | [.str s] => some s
  | .str s :: rest => (joinExpls rest).map (fun t => s ++ ", " ++ t)
  | _ => none

/-- Scalar views of a list of values; `none` as soon as one is unhashable. -/
def scalarKeys? : List Json → Option (List ScalarKey)
  | [] => some []
  | v :: rest =>
    match scalarKey? v, scalarKeys? rest with
    | some k, some ks => some (k :: ks)
    | _, _ => none

/-- Size of `{ h.get("value") for h in hits }`: `none` when some value is
unhashable (a list or dict), otherwise the number of distinct values.
Structural equality suffices here because the compared values are scalars. -/
def uniqueValuesCount (vs : List Json) : Option Nat :=
  (scalarKeys? vs).map (fun ks => ks.dedup.length)

/-- Body of `curate_and_disambiguate`'s per-field loop: carry over a settled
node; otherwise merge the hits collected from the per-document extractions
(no hit: keep the previous node or synthesize the empty node; one hit: adopt
it verbatim; several hits: average confidences when all values agree, else
record every value and explanation with the minimum confidence and a
conflict flag). -/
def reconcileField (extracted : List (String × List (String × InformationNode)))
    (existing : Option InformationNode) (field : String) : Option InformationNode :=
  match carriedOver existing with
  | none => none
  | some true => existing
  | some false =>
    match collectHits extracted field with
    | [] =>
      match existing with
      | some r => some r
      | none =>
          some { match_ := false, value := .null, explanation := .null
                 confidence := .null, has_conflict := some false }
    | [h] => some h
    | h1 :: h2 :: hs =>
      let hits := h1 :: h2 :: hs
      match uniqueValuesCount (hits.map (·.value)) with
      | none => none
      | some n =>
        if n = 1 then
          match sumConfs (hits.map (·.confidence)),
                joinExpls (hits.map (·.explanation)) with
          | some s, some e =>
              some { match_ := true, value := h1.value, explanation := .str e
                     confidence := .num (Int.tdiv s (hits.length : Int))
                     has_conflict := some false }
          | _, _ => none
        else
          match minConfs (hits.map (·.confidence)) with
          | some m =>
              some { match_ := true, value := .arr (hits.map (·.value))
                     explanation := .arr (hits.map (·.explanation))
                     confidence := .num m, has_conflict := some true }
          | none => none

/-- Field loop of `curate_and_disambiguate` over the keys of `all_fields`,
building the new results map in field order. -/
def curateFields (extracted : List (String × List (String × InformationNode)))
    (existing_results : List (String × InformationNode)) :
    List String → Option (List (String × InformationNode))
  | [] => some []
  | f :: rest =>
    match reconcileField extracted (existing_results.lookup f) f,
          curateFields extracted existing_results rest with
    | some node, some tail => some ((f, node) :: tail)
    | _, _ => none

/-- Embedding of `DocumentCaptureAgent.curate_and_disambiguate`: from the
per-document extractions, the field dictionary and the previous results,
produce the replacement results map (`none` is an uncaught exception). -/
def curate_and_disambiguate (extracted : List (String × List (String × InformationNode)))
    (all_fields : List (String × String))
    (existing_results : List (String × InformationNode)) :
    Option (List (String × InformationNode)) :=
  curateFields extracted existing_results (all_fields.map Prod.fst)

/-- Entry appended by `find_low_confidence_fields` for a selected field. -/
structure LowItem where
  field : String
  value : Json
  confidence : Json

/-- Confidence test of `find_low_confidence_fields`: `confidence and
confidence < threshold` with Python semantics. A falsy confidence (`None`,
`0`, `False`, `""`, `[]`, `{}`) short-circuits to "not selected"; a truthy
integer is compared with the threshold; the truthy `True` compares as the
integer 1; any other truthy value raises `TypeError` (`none`). -/
def confSelect (confidence : Json) (threshold : Int) : Option Bool :=
  if !truthy confidence then some false
  else
    match confidence with
    | .num n => some (decide (n < threshold))
    | .bool _ => some (decide ((1 : Int) < threshold))
    | _ => none

/-- Multi-value exclusion of `find_low_confidence_fields`:
`isinstance(value, list) and len(value) > 1`. -/
def skipMultiValue (v : Json) : Bool :=
  match v with
  | .arr xs => decide (1 < xs.length)
  | _ => false

/-- Embedding of `DocumentCaptureAgent.find_low_confidence_fields` (caller
passes the default `threshold = 80`): walk the results, skip any field whose
value is a list with more than one element, and collect the fields whose
confidence passes `confSelect`. Nodes are non-empty dicts, so the guard
`if not result: continue` never fires. -/
def find_low_confidence_fields (results : List (String × InformationNode))
    (threshold : Int) : Option (List LowItem) :=
  match results with
  | [] => some []
  | (f, r) :: rest =>
    if skipMultiValue r.value then find_low_confidence_fields rest threshold
    else
      match confSelect r.confidence threshold with
      | none => none
      | some true =>
          (find_low_confidence_fields rest threshold).map
            (fun tail => ⟨f, r.value, r.confidence⟩ :: tail)
      | some false => find_low_confidence_fields rest threshold

/-- Embedding of `DocumentCaptureAgent.solve_low_confidence` over the list of
pending console lines. Selecting "1" keeps the item's current value,
selecting "2" reads a replacement from the next line, anything else prints an
error and reads again. The result is the chosen value together with the
unconsumed input lines; `none` means the input was exhausted while the prompt
was still being reissued (`input()` at end of stream). -/
def solve_low_confidence (value : Json) : List String → Option (Json × List String)
  | [] => none
  | i :: rest =>
    if i = "1" then some (value, rest)
    else if i = "2" then
      match rest with
      | [] => none
      | v :: rest2 => some (.str v, rest2)
    else solve_low_confidence value rest

/-- Entry appended by `find_multiple_value_fields` for a conflicted field. -/
structure MultiItem where
  field : String
  values : List Json
  confidence : Json

/-- Embedding of `DocumentCaptureAgent.find_multiple_value_fields`: exactly
the fields whose value is a list with more than one element, regardless of
confidence or match. -/
def find_multiple_value_fields (results : List (String × InformationNode)) :
    List MultiItem :=
  results.filterMap (fun p =>
    match p.2.value with
    | .arr xs => if 1 < xs.length then some ⟨p.1, xs, p.2.confidence⟩ else none
    | _ => none)

/-- Outcome of one call to `solve_multiple_values`: a returned value with the
unconsumed input lines, an uncaught exception, or non-termination. -/
inductive MVOutcome where
  | ret (v : Json) (rest : List String)
  | crash
  | loops

/-- Embedding of `DocumentCaptureAgent.solve_multiple_values`. The code reads
one selection, converts it with `int()` (`ValueError` on non-numeric input),
then enters `while not solved`. Because the branch condition only involves
`option_int` and `position`, which the loop never changes, the loop either
returns on its first pass or prints the error message forever without reading
further input (`loops`). A valid position returns `value[option_int-1]`,
where `value` is the leftover variable of the candidate-printing `for` loop,
i.e. the LAST candidate: for a string candidate this is one character of it
(`IndexError` past its end), for a list candidate one element, and any other
candidate raises `TypeError`. Choosing `position` itself reads a new value
from the next input line. -/
def solve_multiple_values (values : List Json) (inputs : List String) : MVOutcome :=
  match inputs with
  | [] => .crash
  | i :: rest =>
    match pyInt? i with
    | none => .crash
    | some n =>
      let position : Int := (values.length : Int) + 1
      if 0 < n ∧ n < position then
        match values.getLast? with
        | none => .loops
        | some lastVal =>
          match lastVal with
          | .str s =>
            match s.data.get? (n - 1).toNat with
            | some c => .ret (.str (String.singleton c)) rest
            | none => .crash
          | .arr xs =>
            match xs.get? (n - 1).toNat with
            | some x => .ret x rest
            | none => .crash
          | _ => .crash
      else if n = position then
        match rest with
        | [] => .crash
        | v :: rest2 => .ret (.str v) rest2
      else .loops

/-- Commit in `enough_confidence`: `results[field]["value"] =
confirmed_value.strip(); results[field]["confidence"] = 100`, for an already
stripped string. -/
def setResolved (results : List (String × InformationNode)) (field : String)
    (s : String) : List (String × InformationNode) :=
  results.map (fun p =>
    if p.1 = field then
      (p.1, { p.2 with value := .str s, confidence := .num 100 })
    else p)

/-- Python `.strip()` on the value returned by a resolver: `none`
(`AttributeError`) unless it is a string. -/
def pyStripValue? : Json → Option String
  | .str s => some (pyStrip s)
  | _ => none

/-- Low-confidence resolution loop of `enough_confidence`: resolve each item
in order, committing the stripped value with confidence 100 and threading the
console input. -/
def processLow (items : List LowItem) (results : List (String × InformationNode))
    (inputs : List String) : Option (List (String × InformationNode) × List String) :=
  match items with
  | [] => some (results, inputs)
  | it :: rest =>
    match solve_low_confidence it.value inputs with
    | none => none
    | some (v, inputs2) =>
      match pyStripValue? v with
      | none => none
      | some s => processLow rest (setResolved results it.field s) inputs2

/-- Multi-value resolution loop of `enough_confidence`; `crash` and `loops`
outcomes of the resolver both mean the run does not complete (`none`). -/
def processMulti (items : List MultiItem) (results : List (String × InformationNode))
    (inputs : List String) : Option (List (String × InformationNode) × List String) :=
  match items with
  | [] => some (results, inputs)
  | it :: rest =>
    match solve_multiple_values it.values inputs with
    | .ret v inputs2 =>
      match pyStripValue? v with
      | none => none
      | some s => processMulti rest (setResolved results it.field s) inputs2
    | .crash => none
    | .loops => none

/-- Embedding of `DocumentCaptureAgent.enough_confidence`: both selections
are computed up front from the incoming results, then the low-confidence
items are resolved, then the multi-value items, all against one console
input stream. -/
def enough_confidence (results : List (String × InformationNode))
    (threshold : Int) (inputs : List String) :
    Option (List (String × InformationNode)) :=
  match find_low_confidence_fields results threshold with
  | none => none
  | some low =>
    let multi := find_multiple_value_fields results
    match processLow low results inputs with
    | none => none
    | some (results2, inputs2) =>
      match processMulti multi results2 inputs2 with
      | none => none
      | some (results3, _) => some results3

/-- Missing-field scan of `enough_information`: the fields of the current
results whose `match` is falsy, in result order. -/
def missingFields (results : List (String × InformationNode)) : List String :=
  results.filterMap (fun p => if p.2.match_ then none else some p.1)

/-- Embedding of `DocumentCaptureAgent.enough_information`: increment the
iteration counter and recompute `sufficient_info` as "no field is missing".
Returns (sufficient_info, iteration). -/
def enough_information (results : List (String × InformationNode))
    (iteration : Int) : Bool × Int :=
  ((missingFields results).isEmpty, iteration + 1)

/-- Embedding of `DocumentHub.load_documents` at the level of filenames: walk
the files found in the source folder in order and append each one whose
filename is not already in the document list. The list is only ever grown. -/
def load_documents (docs : List String) : List String → List String
  | [] => docs
  | f :: rest =>
    if f ∈ docs then load_documents docs rest
    else load_documents (docs ++ [f]) rest

/-- Embedding of `DocumentCaptureAgent.route_sufficient_info`: when the
information is insufficient the document hub is reloaded, and the route is
forced to "sufficient" anyway when the document count did not change. The
`before`/`after` arguments are the document counts around the reload. -/
def route_sufficient_info (sufficient : Bool) (before after : Nat) : String :=
  let is_sufficient := if sufficient then "sufficient" else "not_sufficient"
  if !sufficient then
    if after = before then "sufficient" else is_sufficient
  else is_sufficient

/-! Helper lemmas. -/

theorem lookup_map_mem {β : Type} (g : String → β) :
    ∀ (l : List String) (f : String), f ∈ l →
      (l.map (fun x => (x, g x))).lookup f = some (g f) := by
  intro l
  induction l with
  | nil => intro f hf; cases hf
  | cons a t ih =>
      intro f hf
      by_cases h : f = a
      · subst h
        simp [List.lookup]
      · have hft : f ∈ t := by
          cases hf with
          | head => exact absurd rfl h
          | tail _ h2 => exact h2
        have hb : (f == a) = false := beq_eq_false_iff_ne.mpr h
        simpa [List.lookup, hb] using ih f hft

theorem curateFields_keys : ∀ (fs : List String) extracted ex res,
    curateFields extracted ex fs = some res → res.map Prod.fst = fs := by
  intro fs
  induction fs with
  | nil =>
      intro _ _ res h
      simp only [curateFields, Option.some_inj] at h
      subst h; rfl
  | cons f rest ih =>
      intro extracted ex res h
      simp only [curateFields] at h
      cases hnode : reconcileField extracted (ex.lookup f) f with
      | none => rw [hnode] at h; cases h
      | some node =>
        cases htail : curateFields extracted ex rest with
        | none => rw [hnode, htail] at h; cases h
        | some tail =>
          rw [hnode, htail] at h
          cases h
          simp [ih _ _ _ htail]

theorem carriedOver_settled (r : InformationNode) (n : Int)
    (hm : r.match_ = true) (hc : r.has_conflict = some false)
    (hn : r.confidence = Json.num n) (h10 : 10 ≤ n) :
    carriedOver (some r) = some true := by
  simp [carriedOver, hm, hc, hn, h10]

theorem curateFields_carry : ∀ (fs : List String) extracted ex field r res,
    curateFields extracted ex fs = some res →
    field ∈ fs →
    ex.lookup field = some r →
    carriedOver (some r) = some true →
    res.lookup field = some r := by
  intro fs
  induction fs with
  | nil => intro _ _ _ _ _ _ hmem; cases hmem
  | cons f rest ih =>
      intro extracted ex field r res hres hmem hex hcarry
      simp only [curateFields] at hres
      cases hnode : reconcileField extracted (ex.lookup f) f with
      | none => rw [hnode] at hres; cases hres
      | some node =>
        cases htail : curateFields extracted ex rest with
        | none => rw [hnode, htail] at hres; cases hres
        | some tail =>
          rw [hnode, htail] at hres
          cases hres
          by_cases hf : field = f
          · subst hf
            rw [hex] at hnode
            have hrf : reconcileField extracted (some r) field = some r := by
              simp [reconcileField, hcarry]
            rw [hrf] at hnode
            cases hnode
            simp [List.lookup]
          · have hmem' : field ∈ rest := by
              cases hmem with
              | head => exact absurd rfl hf
              | tail _ h2 => exact h2
            have hb : (field == f) = false := beq_eq_false_iff_ne.mpr hf
            simpa [List.lookup, hb] using ih extracted ex field r tail htail hmem' hex hcarry

theorem load_documents_suffix : ∀ (fs docs : List String),
    ∃ extra, load_documents docs fs = docs ++ extra := by
  intro fs
  induction fs with
  | nil => intro docs; exact ⟨[], by simp [load_documents]⟩
  | cons f rest ih =>
      intro docs
      by_cases h : f ∈ docs
      · simpa [load_documents, h] using ih docs
      · obtain ⟨extra, he⟩ := ih (docs ++ [f])
        refine ⟨f :: extra, ?_⟩
        simp [load_documents, h, he]

theorem sumConfs_map : ∀ cs : List Int, sumConfs (cs.map Json.num) = some cs.sum := by
  intro cs
  induction cs with
  | nil => rfl
  | cons c t ih => simp [sumConfs, ih]

theorem minConfs_spec : ∀ cs : List Int, cs ≠ [] →
    ∃ m, minConfs (cs.map Json.num) = some m ∧ m ∈ cs ∧ ∀ c ∈ cs, m ≤ c := by
  intro cs
  induction cs with
  | nil => intro h; exact absurd rfl h
  | cons c t ih =>
      intro _
      cases t with
      | nil => exact ⟨c, rfl, by simp, by simp⟩
      | cons c2 t2 =>
          obtain ⟨m, hm, hmem, hle⟩ := ih (by simp)
          refine ⟨min c m, ?_, ?_, ?_⟩
          · show (minConfs (List.map Json.num (c2 :: t2))).map (fun x => min c x) =
              some (min c m)
            rw [hm]
            rfl
          · rcases le_total c m with h | h
            · simp [min_eq_left h]
            · rw [min_eq_right h]
              exact List.mem_cons_of_mem _ hmem
          · intro x hx
            rcases List.mem_cons.mp hx with rfl | hx2
            · exact min_le_left _ _
            · exact le_trans (min_le_right _ _) (hle x hx2)

theorem intercalate_go_cons : ∀ (t : List String) (s acc b : String),
    String.intercalate.go acc s (b :: t) = acc ++ s ++ String.intercalate.go b s t := by
  intro t
  induction t with
  | nil => intro s acc b; rfl
  | cons c t2 ih =>
      intro s acc b
      show String.intercalate.go (acc ++ s ++ b) s (c :: t2) = _
      rw [ih s (acc ++ s ++ b) c, ih s b c]
      simp [String.append_assoc]

theorem joinExpls_map : ∀ es : List String,
    joinExpls (es.map Json.str) = some (String.intercalate ", " es) := by
  intro es
  induction es with
  | nil => rfl
  | cons a as ih =>
      cases as with
      | nil => rfl
      | cons b t =>
          show (joinExpls ((b :: t).map Json.str)).map (fun r => a ++ ", " ++ r) = _
          rw [ih]
          show some (a ++ ", " ++ String.intercalate ", " (b :: t)) = _
          rw [show String.intercalate ", " (a :: b :: t) =
                String.intercalate.go a ", " (b :: t) from rfl,
              intercalate_go_cons]
          rfl

theorem scalarKeys_str : ∀ vs : List String,
    scalarKeys? (vs.map Json.str) = some (vs.map ScalarKey.str) := by
  intro vs
  induction vs with
  | nil => rfl
  | cons v t ih => simp [scalarKeys?, scalarKey?, ih]

theorem dedup_const : ∀ (t : List ScalarKey) (k : ScalarKey),
    (∀ x ∈ k :: t, x = k) → (k :: t).dedup = [k] := by
  intro t
  induction t with
  | nil => intro k _; simp
  | cons y t2 ih =>
      intro k hall
      have hy : y = k := hall y (by simp)
      subst hy
      rw [List.dedup_cons_of_mem (by simp)]
      exact ih y (fun x hx => hall x (List.mem_cons_of_mem _ hx))

theorem dedup_length_ne_one (l : List ScalarKey) (a b : ScalarKey)
    (ha : a ∈ l) (hb : b ∈ l) (hne : a ≠ b) : l.dedup.length ≠ 1 := by
  intro h1
  obtain ⟨x, hx⟩ := List.length_eq_one.mp h1
  have ha' : a ∈ l.dedup := List.mem_dedup.mpr ha
  have hb' : b ∈ l.dedup := List.mem_dedup.mpr hb
  rw [hx] at ha' hb'
  simp only [List.mem_singleton] at ha' hb'
  exact hne (ha'.trans hb'.symm)

/-! Claim theorems. -/

/-- C10: after a reconciliation pass that completes, the key list of the new
results map is exactly the key list of `all_fields` (each field mapped once,
in field order); fields of the previous results that are not in `all_fields`
are dropped. -/
theorem curate_keys (extracted : List (String × List (String × InformationNode)))
    (all_fields : List (String × String))
    (existing_results res : List (String × InformationNode))
    (h : curate_and_disambiguate extracted all_fields existing_results = some res) :
    res.map Prod.fst = all_fields.map Prod.fst :=
  curateFields_keys _ _ _ _ h

/-- C10 witness: a field of the previous results ("viejo") that is absent
from `all_fields` is dropped, and the new key list is the field list. -/
theorem curate_keys_witness :
    ([("a", ({ match_ := false, value := .null, explanation := .null,
               confidence := .null, has_conflict := some false } : InformationNode))].map
        Prod.fst)
      = ([("a", "descripcion")] : List (String × String)).map Prod.fst :=
  curate_keys [] [("a", "descripcion")]
    [("viejo", { match_ := true, value := .str "x", explanation := .null,
                 confidence := .num 50, has_conflict := some false })] _ rfl

/-- C2: a field whose accepted node has a truthy `match`, `has_conflict`
false and integer confidence at least 10 is carried over unchanged by the
next reconciliation pass, whatever the new per-document extractions are. -/
theorem carry_over_idempotent
    (extracted : List (String × List (String × InformationNode)))
    (all_fields : List (String × String))
    (existing_results res : List (String × InformationNode))
    (field : String) (r : InformationNode) (n : Int)
    (hmem : field ∈ all_fields.map Prod.fst)
    (hex : existing_results.lookup field = some r)
    (hm : r.match_ = true) (hc : r.has_conflict = some false)
    (hn : r.confidence = Json.num n) (h10 : 10 ≤ n)
    (hres : curate_and_disambiguate extracted all_fields existing_results = some res) :
    res.lookup field = some r :=
  curateFields_carry _ _ _ _ _ _ hres hmem hex (carriedOver_settled r n hm hc hn h10)

/-- C2 witness: the accepted node `{match:true, value:"Bci", confidence:80}`
for "banco" survives a pass that offers a fresh conflicting hit
`{value:"Santander", confidence:95}`. -/
theorem carry_over_idempotent_witness :
    ([("banco", ({ match_ := true, value := .str "Bci", explanation := .null,
                   confidence := .num 80, has_conflict := some false } : InformationNode))].lookup
        "banco")
      = some { match_ := true, value := .str "Bci", explanation := .null,
               confidence := .num 80, has_conflict := some false } :=
  carry_over_idempotent
    [("doc1", [("banco", { match_ := true, value := .str "Santander", explanation := .null,
                           confidence := .num 95, has_conflict := none })])]
    [("banco", "Banco al que pertenece la cuenta")]
    [("banco", { match_ := true, value := .str "Bci", explanation := .null,
                 confidence := .num 80, has_conflict := some false })]
    _ "banco" _ 80 (by simp) rfl rfl rfl rfl (by decide) rfl

/-- C6: after the resolver step, `sufficient_info` is recomputed as "every
field of the current results has a truthy match" (and the iteration counter
is incremented), and the router picks "not_sufficient" (loop back to
extraction) exactly when the information is insufficient AND reloading the
document folder strictly grew the document list; since the loader only ever
appends, an unchanged count forces the "sufficient" route. -/
theorem sufficiency_and_forced_termination
    (results : List (String × InformationNode)) (iteration : Int)
    (before found : List String) :
    ((enough_information results iteration).1 = true ↔
      ∀ p ∈ results, p.2.match_ = true)
  ∧ (enough_information results iteration).2 = iteration + 1
  ∧ (route_sufficient_info (enough_information results iteration).1
        before.length (load_documents before found).length = "not_sufficient" ↔
      ((enough_information results iteration).1 = false ∧
        before.length < (load_documents before found).length)) := by
  obtain ⟨extra, he⟩ := load_documents_suffix found before
  refine ⟨?_, rfl, ?_⟩
  · simp only [enough_information, missingFields, List.isEmpty_iff,
      List.filterMap_eq_nil_iff]
    constructor
    · intro h p hp
      have := h p hp
      by_cases hm : p.2.match_ = true
      · exact hm
      · simp [hm] at this
    · intro h p hp
      simp [h p hp]
  · rw [he]
    have hs : ("sufficient" : String) ≠ "not_sufficient" := by decide
    cases hb : (enough_information results iteration).1 with
    | true => simp [route_sufficient_info, hs]
    | false =>
        by_cases hz : extra.length = 0
        · rw [List.length_append, hz]
          simp [route_sufficient_info, hs]
        · rw [List.length_append]
          have hne : before.length + extra.length ≠ before.length := by omega
          simp [route_sufficient_info, hne]
          omega

/-- C7: `normalize_fields` maps every planned field; an absent-or-null entry
becomes the canonical empty node (confidence 0); a structured object has its
`match` coerced with Python truthiness, `value` and `explanation` passed
through, and a null confidence defaulted to 0 (a non-null one passed
through); a bare scalar (bool, number or string) becomes a truthy low-trust
node with the unstructured-response marker and confidence 30. -/
theorem normalize_fields_spec (text : List (String × Json))
    (expected : List String) (f : String) (hf : f ∈ expected) :
    (jget text f = .null →
        (normalize_fields text expected).lookup f =
          some { match_ := false, value := .null, explanation := .null,
                 confidence := .num 0, has_conflict := none })
  ∧ (∀ kvs, jget text f = .obj kvs →
        ∃ node, (normalize_fields text expected).lookup f = some node
          ∧ node.match_ = truthy (jget kvs "match")
          ∧ node.value = jget kvs "value"
          ∧ node.explanation = jget kvs "explanation"
          ∧ node.has_conflict = none
          ∧ (jget kvs "confidence" = .null → node.confidence = .num 0)
          ∧ (jget kvs "confidence" ≠ .null →
              node.confidence = jget kvs "confidence"))
  ∧ (∀ b, jget text f = .bool b →
        (normalize_fields text expected).lookup f =
          some { match_ := true, value := .bool b,
                 explanation := .str unstructuredMarker,
                 confidence := .num 30, has_conflict := none })
  ∧ (∀ n, jget text f = .num n →
        (normalize_fields text expected).lookup f =
          some { match_ := true, value := .num n,
                 explanation := .str unstructuredMarker,
                 confidence := .num 30, has_conflict := none })
  ∧ (∀ s, jget text f = .str s →
        (normalize_fields text expected).lookup f =
          some { match_ := true, value := .str s,
                 explanation := .str unstructuredMarker,
                 confidence := .num 30, has_conflict := none }) := by
  have hl : (normalize_fields text expected).lookup f =
      some (normalizeEntry (jget text f)) :=
    lookup_map_mem (fun x => normalizeEntry (jget text x)) expected f hf
  refine ⟨?_, ?_, ?_, ?_, ?_⟩
  · intro h; rw [hl, h]; rfl
  · intro kvs h
    refine ⟨normalizeEntry (jget text f), hl, ?_⟩
    rw [h]
    refine ⟨rfl, rfl, rfl, rfl, ?_, ?_⟩
    · intro hc
      simp [normalizeEntry, hc]
    · intro hc
      cases hcv : jget kvs "confidence" with
      | null => exact absurd hcv hc
      | bool b => simp [normalizeEntry, hcv]
      | num n => simp [normalizeEntry, hcv]
      | str s => simp [normalizeEntry, hcv]
      | arr xs => simp [normalizeEntry, hcv]
      | obj kvs2 => simp [normalizeEntry, hcv]
  · intro b h; rw [hl, h]; rfl
  · intro n h; rw [hl, h]; rfl
  · intro s h; rw [hl, h]; rfl

/-- C7 witness: on a response carrying one bare scalar and one structured
entry, the planned fields normalize to the low-trust node, the coerced
structured node, and (for the unanswered field) the canonical empty node. -/
theorem normalize_fields_spec_witness :
    (normalize_fields
        [("razon_social", .str "ACME"),
         ("rut_comercio", .obj [("match", .bool true), ("value", .str "1-9"),
                                ("explanation", .str "en linea 2"),
                                ("confidence", .null)])]
        ["razon_social", "rut_comercio", "banco"]).lookup "razon_social"
      = some { match_ := true, value := .str "ACME",
               explanation := .str unstructuredMarker,
               confidence := .num 30, has_conflict := none }
  ∧ (normalize_fields
        [("razon_social", .str "ACME"),
         ("rut_comercio", .obj [("match", .bool true), ("value", .str "1-9"),
                                ("explanation", .str "en linea 2"),
                                ("confidence", .null)])]
        ["razon_social", "rut_comercio", "banco"]).lookup "banco"
      = some { match_ := false, value := .null, explanation := .null,
               confidence := .num 0, has_conflict := none } :=
  ⟨(normalize_fields_spec _ _ "razon_social" (by simp)).2.2.2.2 "ACME" rfl,
   (normalize_fields_spec _ _ "banco" (by simp)).1 rfl⟩

theorem map_value_replicate : ∀ (l : List InformationNode) (v : String),
    (∀ h ∈ l, h.value = Json.str v) →
    l.map (fun x => x.value) = List.replicate l.length (Json.str v) := by
  intro l v
  induction l with
  | nil => intro _; rfl
  | cons x t ih =>
      intro hall
      simp [hall x (by simp), ih (fun h hh => hall h (List.mem_cons_of_mem _ hh)),
        List.replicate_succ]

theorem dedup_replicate (n : Nat) (k : ScalarKey) :
    (List.replicate (n + 1) k).dedup = [k] := by
  rw [List.replicate_succ]
  refine dedup_const _ k ?_
  intro x hx
  rcases List.mem_cons.mp hx with rfl | hx2
  · rfl
  · exact List.eq_of_mem_replicate hx2

/-- C1: a field that is not settled by carry-over and has two or more hits
whose string values are not all identical merges to a truthy node holding
the ordered list of the hits' values, the parallel ordered list of their
explanations, the minimum of the hits' confidences, and `has_conflict =
true`. -/
theorem conflict_merge_spec
    (extracted : List (String × List (String × InformationNode)))
    (existing : Option InformationNode) (field : String)
    (hits : List InformationNode) (vs : List String) (cs : List Int)
    (hcarry : carriedOver existing = some false)
    (hhits : collectHits extracted field = hits)
    (hlen : 2 ≤ hits.length)
    (hvals : hits.map (fun x => x.value) = vs.map Json.str)
    (hconfs : hits.map (fun x => x.confidence) = cs.map Json.num)
    (hdiff : ∃ a ∈ vs, ∃ b ∈ vs, a ≠ b) :
    ∃ m, reconcileField extracted existing field =
        some { match_ := true, value := .arr (vs.map Json.str),
               explanation := .arr (hits.map (fun x => x.explanation)),
               confidence := .num m, has_conflict := some true }
      ∧ m ∈ cs ∧ ∀ c ∈ cs, m ≤ c := by
  cases hits with
  | nil => simp at hlen
  | cons h1 t =>
  cases t with
  | nil => simp at hlen
  | cons h2 hs =>
  have hcsl : cs.length = (h1 :: h2 :: hs).length := by
    have := congrArg List.length hconfs
    simpa using this.symm
  have hcsne : cs ≠ [] := by
    intro h
    rw [h] at hcsl
    simp at hcsl
  obtain ⟨m, hminc, hmem, hle⟩ := minConfs_spec cs hcsne
  obtain ⟨a, ha, b, hb, hab⟩ := hdiff
  have huniq : uniqueValuesCount ((h1 :: h2 :: hs).map (fun x => x.value)) =
      some ((vs.map ScalarKey.str).dedup.length) := by
    rw [hvals]
    simp [uniqueValuesCount, scalarKeys_str]
  have hne1 : (vs.map ScalarKey.str).dedup.length ≠ 1 := by
    refine dedup_length_ne_one _ (ScalarKey.str a) (ScalarKey.str b)
      (List.mem_map_of_mem _ ha) (List.mem_map_of_mem _ hb) ?_
    intro h
    exact hab (by injection h)
  refine ⟨m, ?_, hmem, hle⟩
  unfold reconcileField
  rw [hcarry, hhits]
  dsimp only
  rw [huniq]
  dsimp only
  rw [if_neg hne1, hconfs, hminc]
  dsimp only
  rw [hvals]

/-- C1 witness: hits `{value:"A", confidence:90}` and `{value:"B",
confidence:60}` merge to `{match:true, value:["A","B"], confidence:60,
has_conflict:true}` with the parallel explanation list. -/
theorem conflict_merge_spec_witness :
    reconcileField
      [("d1", [("campo", { match_ := true, value := .str "A",
                           explanation := .str "de d1", confidence := .num 90,
                           has_conflict := none })]),
       ("d2", [("campo", { match_ := true, value := .str "B",
                           explanation := .str "de d2", confidence := .num 60,
                           has_conflict := none })])]
      none "campo" =
      some { match_ := true, value := .arr [.str "A", .str "B"],
             explanation := .arr [.str "de d1", .str "de d2"],
             confidence := .num 60, has_conflict := some true } := by
  obtain ⟨m, hm, hmem, hle⟩ :=
    conflict_merge_spec
      [("d1", [("campo", { match_ := true, value := .str "A",
                           explanation := .str "de d1", confidence := .num 90,
                           has_conflict := none })]),
       ("d2", [("campo", { match_ := true, value := .str "B",
                           explanation := .str "de d2", confidence := .num 60,
                           has_conflict := none })])]
      none "campo"
      [{ match_ := true, value := .str "A", explanation := .str "de d1",
         confidence := .num 90, has_conflict := none },
       { match_ := true, value := .str "B", explanation := .str "de d2",
         confidence := .num 60, has_conflict := none }]
      ["A", "B"] [90, 60] rfl rfl (by decide) rfl rfl
      ⟨"A", by simp, "B", by simp, by decide⟩
  have h60 : m = 60 := by
    simp only [List.mem_cons, List.mem_singleton] at hmem
    rcases hmem with rfl | rfl | h
    · have := hle 60 (by simp)
      omega
    · rfl
    · simp at h
  rw [h60] at hm
  exact hm

/-- C3: a field that is not settled by carry-over and has two or more hits
all sharing exactly the same string value merges to a truthy node with that
value, the confidences' arithmetic mean truncated toward zero, the
explanations joined by ", ", and `has_conflict = false`. -/
theorem unanimous_merge_spec
    (extracted : List (String × List (String × InformationNode)))
    (existing : Option InformationNode) (field : String)
    (hits : List InformationNode) (v : String) (cs : List Int) (es : List String)
    (hcarry : carriedOver existing = some false)
    (hhits : collectHits extracted field = hits)
    (hlen : 2 ≤ hits.length)
    (hvals : ∀ h ∈ hits, h.value = Json.str v)
    (hconfs : hits.map (fun x => x.confidence) = cs.map Json.num)
    (hes : hits.map (fun x => x.explanation) = es.map Json.str) :
    reconcileField extracted existing field =
      some { match_ := true, value := .str v,
             explanation := .str (String.intercalate ", " es),
             confidence := .num (Int.tdiv cs.sum (cs.length : Int)),
             has_conflict := some false } := by
  cases hits with
  | nil => simp at hlen
  | cons h1 t =>
  cases t with
  | nil => simp at hlen
  | cons h2 hs =>
  have hv1 : h1.value = Json.str v := hvals h1 (by simp)
  have hcsl : cs.length = (h1 :: h2 :: hs).length := by
    have := congrArg List.length hconfs
    simpa using this.symm
  have huniq : uniqueValuesCount ((h1 :: h2 :: hs).map (fun x => x.value)) =
      some 1 := by
    rw [map_value_replicate _ v hvals]
    show uniqueValuesCount (List.replicate (hs.length + 1 + 1) (Json.str v)) = some 1
    rw [← List.map_replicate]
    simp only [uniqueValuesCount, scalarKeys_str]
    rw [List.map_replicate]
    show some ((List.replicate (hs.length + 1 + 1) (ScalarKey.str v)).dedup.length) =
      some 1
    rw [dedup_replicate]
    rfl
  unfold reconcileField
  rw [hcarry, hhits]
  dsimp only
  rw [huniq]
  dsimp only
  rw [if_pos rfl, hconfs, hes, sumConfs_map, joinExpls_map]
  dsimp only
  rw [hv1, hcsl]

/-- C3 witness: hits `{value:"X", confidence:80}` and `{value:"X",
confidence:90}` merge to `{match:true, value:"X", confidence:85,
has_conflict:false}` with the explanations joined by ", ". -/
theorem unanimous_merge_spec_witness :
    reconcileField
      [("d1", [("campo", { match_ := true, value := .str "X",
                           explanation := .str "de d1", confidence := .num 80,
                           has_conflict := none })]),
       ("d2", [("campo", { match_ := true, value := .str "X",
                           explanation := .str "de d2", confidence := .num 90,
                           has_conflict := none })])]
      none "campo" =
      some { match_ := true, value := .str "X",
             explanation := .str "de d1, de d2",
             confidence := .num 85, has_conflict := some false } := by
  have h :=
    unanimous_merge_spec
      [("d1", [("campo", { match_ := true, value := .str "X",
                           explanation := .str "de d1", confidence := .num 80,
                           has_conflict := none })]),
       ("d2", [("campo", { match_ := true, value := .str "X",
                           explanation := .str "de d2", confidence := .num 90,
                           has_conflict := none })])]
      none "campo"
      [{ match_ := true, value := .str "X", explanation := .str "de d1",
         confidence := .num 80, has_conflict := none },
       { match_ := true, value := .str "X", explanation := .str "de d2",
         confidence := .num 90, has_conflict := none }]
      "X" [80, 90] ["de d1", "de d2"] rfl rfl (by decide)
      (by
        intro h hh
        simp only [List.mem_cons, List.mem_singleton] at hh
        rcases hh with rfl | rfl | hfalse
        · rfl
        · rfl
        · simp at hfalse)
      rfl rfl
  exact h

/-- C8 counterexample: `normalize_fields` on a structured entry whose `match`
is false still passes the non-null `value` and `confidence` through, so the
data-model invariant "match false implies value/explanation/confidence all
absent or null" is violated by a node the system itself produces. -/
theorem node_invariant_counterexample :
    normalize_fields
      [("campo", .obj [("match", .bool false), ("value", .str "X"),
                       ("confidence", .num 90)])] ["campo"] =
      [("campo", { match_ := false, value := .str "X", explanation := .null,
                   confidence := .num 90, has_conflict := none })]
  ∧ Json.str "X" ≠ Json.null
  ∧ Json.num 90 ≠ Json.null :=
  ⟨rfl, fun h => Json.noConfusion h, fun h => Json.noConfusion h⟩

/-- C8 (amended): the match-false nodes the system synthesizes itself do have
null value and explanation — the normalizer's absent-or-null branch emits the
canonical empty node (with confidence 0, not null), and the reconciler's
no-hit branch for a field with no prior node emits the empty node with null
confidence. The invariant does not extend to the normalizer's structured
branch, which passes fields through even when match is false. -/
theorem empty_node_invariant_amended :
    (∀ (text : List (String × Json)) (expected : List String) (f : String),
        f ∈ expected → jget text f = .null →
        (normalize_fields text expected).lookup f =
          some { match_ := false, value := .null, explanation := .null,
                 confidence := .num 0, has_conflict := none })
  ∧ (∀ (extracted : List (String × List (String × InformationNode)))
        (field : String), collectHits extracted field = [] →
        reconcileField extracted none field =
          some { match_ := false, value := .null, explanation := .null,
                 confidence := .null, has_conflict := some false }) := by
  constructor
  · intro text expected f hf hn
    have hl : (normalize_fields text expected).lookup f =
        some (normalizeEntry (jget text f)) :=
      lookup_map_mem (fun x => normalizeEntry (jget text x)) expected f hf
    rw [hl, hn]
    rfl
  · intro extracted field hhits
    unfold reconcileField
    rw [show carriedOver (none : Option InformationNode) = some false from rfl, hhits]

/-- C8 amended witness: both empty-node branches evaluated on concrete
inputs. -/
theorem empty_node_invariant_amended_witness :
    (normalize_fields [] ["campo"]).lookup "campo" =
      some { match_ := false, value := .null, explanation := .null,
             confidence := .num 0, has_conflict := none }
  ∧ reconcileField [] none "campo" =
      some { match_ := false, value := .null, explanation := .null,
             confidence := .null, has_conflict := some false } :=
  ⟨empty_node_invariant_amended.1 [] ["campo"] "campo" (by simp) rfl,
   empty_node_invariant_amended.2 [] "campo" rfl⟩

/-- C5 (code bug): in `solve_multiple_values` the valid-position branch
returns `value[option_int-1]`, where `value` is the leftover loop variable of
the candidate-printing loop, i.e. the LAST candidate string, so choosing
position 1 among ["Bci", "Santander"] commits "S" (the first character of
"Santander") instead of "Bci"; choosing the valid position 2 among
["AB", "C"] raises `IndexError` ("C" has no index 1). The claim that the
chosen candidate is committed is the evident intent, and the code a slip
(`value` for `values`). -/
theorem multi_value_commit_bug :
    solve_multiple_values [.str "Bci", .str "Santander"] ["1"] =
      .ret (.str "S") []
  ∧ solve_multiple_values [.str "AB", .str "C"] ["2"] = .crash :=
  ⟨rfl, rfl⟩

/-- C9 (code bug): `solve_low_confidence` does re-prompt on invalid input
until a valid selection arrives (first two conjuncts), but
`solve_multiple_values` reads its selection once BEFORE the retry loop: on an
invalid numeric selection it prints the error forever without reading the
remaining input ("2", "NuevoValor" are never consumed), and on non-numeric
input `int()` raises `ValueError` instead of re-prompting. -/
theorem resolver_retry_bug :
    solve_low_confidence (.str "X") ["5", "1"] = some (.str "X", [])
  ∧ solve_low_confidence (.str "X") ["7", "2", "Y"] = some (.str "Y", [])
  ∧ solve_multiple_values [.str "Bci", .str "Santander"]
      ["5", "2", "NuevoValor"] = .loops
  ∧ solve_multiple_values [.str "Bci", .str "Santander"] ["abc", "1"] = .crash :=
  ⟨rfl, rfl, rfl, rfl⟩

theorem confSelect_num_ne (n t : Int) (h : n ≠ 0) :
    confSelect (Json.num n) t = some (decide (n < t)) := by
  simp [confSelect, truthy, h]

theorem find_low_fields_sub :
    ∀ (results : List (String × InformationNode)) (t : Int) (items : List LowItem),
      find_low_confidence_fields results t = some items →
      ∀ it ∈ items, it.field ∈ results.map Prod.fst := by
  intro results
  induction results with
  | nil =>
      intro t items h it hit
      simp only [find_low_confidence_fields, Option.some_inj] at h
      subst h
      simp at hit
  | cons p rest ih =>
      intro t items h it hit
      obtain ⟨f, r⟩ := p
      simp only [find_low_confidence_fields] at h
      by_cases hsk : skipMultiValue r.value = true
      · rw [if_pos hsk] at h
        exact List.mem_cons_of_mem _ (ih t items h it hit)
      · rw [if_neg hsk] at h
        cases hcs : confSelect r.confidence t with
        | none => rw [hcs] at h; cases h
        | some b =>
          cases b with
          | false =>
              rw [hcs] at h
              exact List.mem_cons_of_mem _ (ih t items h it hit)
          | true =>
              rw [hcs] at h
              cases htl : find_low_confidence_fields rest t with
              | none => rw [htl] at h; cases h
              | some tail =>
                  rw [htl] at h
                  simp only [Option.map_some'] at h
                  injection h with h2
                  subst h2
                  rcases List.mem_cons.mp hit with rfl | h2
                  · simp
                  · exact List.mem_cons_of_mem _ (ih t tail htl it h2)

theorem find_low_selects :
    ∀ (results : List (String × InformationNode)) (t : Int) (items : List LowItem),
      (∀ f r, (f, r) ∈ results →
        r.confidence = Json.null ∨ ∃ n, r.confidence = Json.num n) →
      (results.map Prod.fst).Nodup →
      find_low_confidence_fields results t = some items →
      ∀ f r, (f, r) ∈ results →
        ((∃ it ∈ items, it.field = f) ↔
          (skipMultiValue r.value = false ∧
           ∃ n, r.confidence = Json.num n ∧ n ≠ 0 ∧ n < t)) := by
  intro results
  induction results with
  | nil => intro t items _ _ _ f r hmem; simp at hmem
  | cons p rest ih =>
    intro t items hreach hnd h f r hmem
    obtain ⟨f0, r0⟩ := p
    simp only [List.map_cons, List.nodup_cons] at hnd
    obtain ⟨hf0, hndr⟩ := hnd
    simp only [find_low_confidence_fields] at h
    have hreach' : ∀ f2 r2, (f2, r2) ∈ rest →
        r2.confidence = Json.null ∨ ∃ n, r2.confidence = Json.num n :=
      fun f2 r2 hp => hreach f2 r2 (List.mem_cons_of_mem _ hp)
    rcases List.mem_cons.mp hmem with heq | hmem2
    · -- head case
      have hfeq : f = f0 := congrArg Prod.fst heq
      have hreq : r = r0 := congrArg Prod.snd heq
      subst hfeq
      subst hreq
      by_cases hsk : skipMultiValue r.value = true
      · rw [if_pos hsk] at h
        apply iff_of_false
        · rintro ⟨it, hit, hfield⟩
          exact hf0 (hfield ▸ find_low_fields_sub rest t items h it hit)
        · rintro ⟨hskf, -⟩
          rw [hsk] at hskf
          cases hskf
      · rw [if_neg hsk] at h
        have hskf : skipMultiValue r.value = false := by
          revert hsk; cases skipMultiValue r.value <;> simp
        rcases hreach f r (by simp) with hnull | ⟨n, hnum⟩
        · have hcs : confSelect r.confidence t = some false := by rw [hnull]; rfl
          rw [hcs] at h
          apply iff_of_false
          · rintro ⟨it, hit, hfield⟩
            exact hf0 (hfield ▸ find_low_fields_sub rest t items h it hit)
          · rintro ⟨-, n2, hn2, -, -⟩
            rw [hnull] at hn2
            cases hn2
        · by_cases h0 : n = 0
          · subst h0
            have hcs : confSelect r.confidence t = some false := by rw [hnum]; rfl
            rw [hcs] at h
            apply iff_of_false
            · rintro ⟨it, hit, hfield⟩
              exact hf0 (hfield ▸ find_low_fields_sub rest t items h it hit)
            · rintro ⟨-, n2, hn2, hne2, -⟩
              rw [hnum] at hn2
              injection hn2 with hn3
              exact hne2 hn3.symm
          · rw [hnum, confSelect_num_ne n t h0] at h
            by_cases hlt : n < t
            · rw [decide_eq_true hlt] at h
              cases htl : find_low_confidence_fields rest t with
              | none => rw [htl] at h; cases h
              | some tail =>
                rw [htl] at h
                simp only [Option.map_some'] at h
                injection h with h2
                subst h2
                apply iff_of_true
                · exact ⟨⟨f, r.value, Json.num n⟩, by simp, rfl⟩
                · exact ⟨hskf, n, hnum, h0, hlt⟩
            · rw [decide_eq_false hlt] at h
              apply iff_of_false
              · rintro ⟨it, hit, hfield⟩
                exact hf0 (hfield ▸ find_low_fields_sub rest t items h it hit)
              · rintro ⟨-, n2, hn2, -, hlt2⟩
                rw [hnum] at hn2
                injection hn2 with hn3
                exact hlt (hn3 ▸ hlt2)
    · -- tail case
      have hfr : f ∈ rest.map Prod.fst := by
        exact List.mem_map_of_mem Prod.fst hmem2
      have hfne : f ≠ f0 := fun hh => hf0 (hh ▸ hfr)
      by_cases hsk : skipMultiValue r0.value = true
      · rw [if_pos hsk] at h
        exact ih t items hreach' hndr h f r hmem2
      · rw [if_neg hsk] at h
        rcases hreach f0 r0 (by simp) with hnull | ⟨n, hnum⟩
        · have hcs : confSelect r0.confidence t = some false := by rw [hnull]; rfl
          rw [hcs] at h
          exact ih t items hreach' hndr h f r hmem2
        · by_cases h0 : n = 0
          · subst h0
            have hcs : confSelect r0.confidence t = some false := by rw [hnum]; rfl
            rw [hcs] at h
            exact ih t items hreach' hndr h f r hmem2
          · rw [hnum, confSelect_num_ne n t h0] at h
            by_cases hlt : n < t
            · rw [decide_eq_true hlt] at h
              cases htl : find_low_confidence_fields rest t with
              | none => rw [htl] at h; cases h
              | some tail =>
                rw [htl] at h
                simp only [Option.map_some'] at h
                injection h with h2
                subst h2
                have ihx := ih t tail hreach' hndr htl f r hmem2
                constructor
                · rintro ⟨it, hit, hfield⟩
                  rcases List.mem_cons.mp hit with rfl | h2
                  · exact absurd hfield.symm hfne
                  · exact ihx.mp ⟨it, h2, hfield⟩
                · intro hrhs
                  obtain ⟨it, hit, hfield⟩ := ihx.mpr hrhs
                  exact ⟨it, List.mem_cons_of_mem _ hit, hfield⟩
            · rw [decide_eq_false hlt] at h
              exact ih t items hreach' hndr h f r hmem2

theorem enough_confidence_keep (f : String) (r : InformationNode) (s : String)
    (c : Int) (hv : r.value = .str s) (hc : r.confidence = .num c)
    (h0 : c ≠ 0) (h80 : c < 80) :
    enough_confidence [(f, r)] 80 ["1"] =
      some [(f, { r with value := .str (pyStrip s), confidence := .num 100 })] := by
  have hsk : skipMultiValue r.value = false := by rw [hv]; rfl
  have hcs : confSelect r.confidence 80 = some true := by
    rw [hc, confSelect_num_ne c 80 h0, decide_eq_true h80]
  have hsel : find_low_confidence_fields [(f, r)] 80 =
      some [⟨f, r.value, r.confidence⟩] := by
    simp [find_low_confidence_fields, hsk, hcs]
  have hmulti : find_multiple_value_fields [(f, r)] = [] := by
    simp [find_multiple_value_fields, hv]
  simp only [enough_confidence, hsel, hmulti]
  simp [processLow, processMulti, solve_low_confidence, pyStripValue?,
    setResolved, hv]

theorem enough_confidence_override (f : String) (r : InformationNode) (s v : String)
    (c : Int) (hv : r.value = .str s) (hc : r.confidence = .num c)
    (h0 : c ≠ 0) (h80 : c < 80) :
    enough_confidence [(f, r)] 80 ["2", v] =
      some [(f, { r with value := .str (pyStrip v), confidence := .num 100 })] := by
  have hsk : skipMultiValue r.value = false := by rw [hv]; rfl
  have hcs : confSelect r.confidence 80 = some true := by
    rw [hc, confSelect_num_ne c 80 h0, decide_eq_true h80]
  have hsel : find_low_confidence_fields [(f, r)] 80 =
      some [⟨f, r.value, r.confidence⟩] := by
    simp [find_low_confidence_fields, hsk, hcs]
  have hmulti : find_multiple_value_fields [(f, r)] = [] := by
    simp [find_multiple_value_fields, hv]
  simp only [enough_confidence, hsel, hmulti]
  simp [processLow, processMulti, solve_low_confidence, pyStripValue?,
    setResolved]

/-- C4 counterexample: the node `{match:true, value:"X", confidence:0}` has a
truthy `match`, a non-list value and confidence 0 < 80, so the claim says the
low-confidence pass must select it — but `find_low_confidence_fields` skips
it, because the code's `if confidence and confidence < threshold` rejects a
Python-falsy confidence of 0. -/
theorem low_confidence_pass_counterexample :
    ({ match_ := true, value := .str "X", explanation := .null,
       confidence := .num 0, has_conflict := some false } : InformationNode).match_
      = true
  ∧ ((0 : Int) < 80)
  ∧ find_low_confidence_fields
      [("campo", { match_ := true, value := .str "X", explanation := .null,
                   confidence := .num 0, has_conflict := some false })] 80
      = some [] :=
  ⟨rfl, by decide, rfl⟩

/-- C4 (amended): the low-confidence pass selects exactly the fields whose
value is not a multi-element list and whose confidence is a nonzero integer
below the threshold (the node's `match` is never consulted, and a null or
zero confidence is never selected); resolving a selected single-string field
by "keep as is" ends with the stripped current value and confidence 100, and
resolving by override ends with the stripped replacement and confidence
100. -/
theorem low_confidence_pass_amended :
    (∀ (results : List (String × InformationNode)) (t : Int)
        (items : List LowItem),
        (∀ f r, (f, r) ∈ results →
          r.confidence = Json.null ∨ ∃ n, r.confidence = Json.num n) →
        (results.map Prod.fst).Nodup →
        find_low_confidence_fields results t = some items →
        ∀ f r, (f, r) ∈ results →
          ((∃ it ∈ items, it.field = f) ↔
            (skipMultiValue r.value = false ∧
             ∃ n, r.confidence = Json.num n ∧ n ≠ 0 ∧ n < t)))
  ∧ (∀ (f : String) (r : InformationNode) (s : String) (c : Int),
        r.value = .str s → r.confidence = .num c → c ≠ 0 → c < 80 →
        enough_confidence [(f, r)] 80 ["1"] =
          some [(f, { r with
                        value := .str (pyStrip s)
                        confidence := .num 100 })])
  ∧ (∀ (f : String) (r : InformationNode) (s v : String) (c : Int),
        r.value = .str s → r.confidence = .num c → c ≠ 0 → c < 80 →
        enough_confidence [(f, r)] 80 ["2", v] =
          some [(f, { r with
                        value := .str (pyStrip v)
                        confidence := .num 100 })]) :=
  ⟨find_low_selects,
   fun f r s c hv hc h0 h80 => enough_confidence_keep f r s c hv hc h0 h80,
   fun f r s v c hv hc h0 h80 => enough_confidence_override f r s v c hv hc h0 h80⟩

/-- C4 amended witness: the field `{match:true, value:"X", confidence:40}` is
selected (it is the sole selected field), "keep as is" ends as value "X"
with confidence 100, and overriding with "Y" ends as value "Y" with
confidence 100. -/
theorem low_confidence_pass_amended_witness :
    enough_confidence
      [("campo", { match_ := true, value := .str "X", explanation := .null,
                   confidence := .num 40, has_conflict := some false })] 80 ["1"]
      = some [("campo", { match_ := true, value := .str "X", explanation := .null,
                          confidence := .num 100, has_conflict := some false })]
  ∧ enough_confidence
      [("campo", { match_ := true, value := .str "X", explanation := .null,
                   confidence := .num 40, has_conflict := some false })] 80
      ["2", "Y"]
      = some [("campo", { match_ := true, value := .str "Y", explanation := .null,
                          confidence := .num 100, has_conflict := some false })] :=
  ⟨low_confidence_pass_amended.2.1 "campo" _ "X" 40 rfl rfl (by decide) (by decide),
   low_confidence_pass_amended.2.2 "campo" _ "X" "Y" 40 rfl rfl (by decide) (by decide)⟩

end DocumentCapture
